import Mathlib

/-
Verification of the GC sample core (GCSample.cpp): bump allocator fast path
(AllocateObject), card-marking write barrier (WriteBarrier / ErectWriteBarrier),
and the card-byte indexing scheme (card_byte_shift / card_byte).

Addresses, sizes and bytes are modelled as naturals; the mutator-visible word
memory and the card table are modelled as total functions from naturals.  The
external heap's slow allocation entry point is a parameter, so the embedding
states exactly what the core itself does.
-/

namespace GCSample

/-- Per-thread bump allocation context (cpp `alloc_context`): `alloc_ptr` is the
cursor (next free byte), `alloc_limit` is one past the last usable byte. -/
structure alloc_context where
  alloc_ptr : Nat
  alloc_limit : Nat
deriving DecidableEq, Repr

/-- Snapshot of the four global heap-bounds addresses the write barrier reads:
`g_lowest_address`, `g_highest_address`, `g_ephemeral_low`, `g_ephemeral_high`. -/
structure HeapBounds where
  g_lowest_address : Nat
  g_highest_address : Nat
  g_ephemeral_low : Nat
  g_ephemeral_high : Nat
deriving DecidableEq, Repr

/-- The card-byte shift: 11 when `_WIN64` is defined (64-bit), 10 otherwise
(32-bit), as in the `#define card_byte_shift` lines of GCSample.cpp. -/
def card_byte_shift (win64 : Bool) : Nat :=
  if win64 then 11 else 10

/-- `card_byte(addr) = ((size_t)(addr)) >> card_byte_shift`. -/
def card_byte (win64 : Bool) (addr : Nat) : Nat :=
  addr >>> card_byte_shift win64

/-- Mutator-visible state: `mem` is the word memory holding object references
(indexed by field address) and `cardTable` is the byte array `g_card_table`
(indexed by card index). -/
structure GCState where
  mem : Nat → Nat
  cardTable : Nat → Nat

/-- `ErectWriteBarrier(dst, ref)`: if `dst` is outside
`[g_lowest_address, g_highest_address)` return immediately; otherwise, if `ref`
is inside `[g_ephemeral_low, g_ephemeral_high)`, look at the card byte at index
`card_byte dst` and store `0xFF` into it only when it does not already hold
`0xFF`.  The result is the new card table together with the list of card-table
indices actually stored to (so that suppressed redundant stores are visible). -/
def ErectWriteBarrier (b : HeapBounds) (win64 : Bool) (cardTable : Nat → Nat)
    (dst ref : Nat) : (Nat → Nat) × List Nat :=
  if dst < b.g_lowest_address ∨ b.g_highest_address ≤ dst then
    (cardTable, [])
  else if b.g_ephemeral_low ≤ ref ∧ ref < b.g_ephemeral_high then
    if cardTable (card_byte win64 dst) ≠ 0xFF then
      (Function.update cardTable (card_byte win64 dst) 0xFF, [card_byte win64 dst])
    else
      (cardTable, [])
  else
    (cardTable, [])

/-- `WriteBarrier(dst, ref)`: perform the raw store `*dst = ref`, then call
`ErectWriteBarrier(dst, ref)`.  Returns the new state and the list of
card-table stores performed. -/
def WriteBarrier (b : HeapBounds) (win64 : Bool) (s : GCState)
    (dst ref : Nat) : GCState × List Nat :=
  let mem' := Function.update s.mem dst ref
  let r := ErectWriteBarrier b win64 s.cardTable dst ref
  (⟨mem', r.1⟩, r.2)

/-- Result of one `AllocateObject` call: the returned object reference (none
models a null return), the allocation context after the call, the word memory
after the call, and how many times the slow path `GCHeap::Alloc` was invoked. -/
structure AllocResult where
  pObject : Option Nat
  context : alloc_context
  mem : Nat → Nat
  slowCalls : Nat

/-- `AllocateObject(pMT)` with `size = pMT->GetBaseSize()`:
`result = alloc_ptr`, `advance = result + size`; if `advance <= alloc_limit`
set `alloc_ptr = advance` and use `result`, else call the slow path
`GCHeap::Alloc(acontext, size, 0)` (a parameter here, returning an optional
object and the context it leaves behind), returning null if it fails.  On
success, `pObject->SetMethodTable(pMT)` writes the descriptor reference into
the first word of the object before returning. -/
def AllocateObject
    (slowAlloc : alloc_context → Nat → Option Nat × alloc_context)
    (acontext : alloc_context) (mem : Nat → Nat) (pMT : Nat) (size : Nat) :
    AllocResult :=
  let result := acontext.alloc_ptr
  let advance := result + size
  if advance ≤ acontext.alloc_limit then
    ⟨some result, ⟨advance, acontext.alloc_limit⟩,
      Function.update mem result pMT, 0⟩
  else
    let r := slowAlloc acontext size
    match r.1 with
    | none => ⟨none, r.2, mem, 1⟩
    | some p => ⟨some p, r.2, Function.update mem p pMT, 1⟩

/-- Run a sequence of `AllocateObject` calls, one per requested size, threading
the allocation context and memory; returns the list of returned references,
the final context and the final memory. -/
def allocRun (slowAlloc : alloc_context → Nat → Option Nat × alloc_context)
    (pMT : Nat) :
    alloc_context → (Nat → Nat) → List Nat →
      List (Option Nat) × alloc_context × (Nat → Nat)
  | ctx, mem, [] => ([], ctx, mem)
  | ctx, mem, size :: rest =>
    let r := AllocateObject slowAlloc ctx mem pMT size
    let t := allocRun slowAlloc pMT r.context r.mem rest
    (r.pObject :: t.1, t.2)

/-- The addresses a fully fast-path bump run hands out: starting cursor, then
each next address is the previous one plus that request's size. -/
def addrs : Nat → List Nat → List Nat
  | _, [] => []
  | c, size :: rest => c :: addrs (c + size) rest

/-- Idempotence of the card-marking part of the barrier: running
`ErectWriteBarrier` a second time on its own output changes nothing. -/
theorem erect_write_barrier_idem (b : HeapBounds) (win64 : Bool)
    (cardTable : Nat → Nat) (dst ref : Nat) :
    (ErectWriteBarrier b win64
      (ErectWriteBarrier b win64 cardTable dst ref).1 dst ref).1 =
      (ErectWriteBarrier b win64 cardTable dst ref).1 := by
  unfold ErectWriteBarrier
  by_cases hout : dst < b.g_lowest_address ∨ b.g_highest_address ≤ dst
  · simp [hout]
  · by_cases heph : b.g_ephemeral_low ≤ ref ∧ ref < b.g_ephemeral_high
    · by_cases hmk : cardTable (card_byte win64 dst) ≠ 0xFF
      · simp [hout, heph, hmk, Function.update_same]
      · simp [hout, heph, hmk]
    · simp [hout, heph]

/-- Claim C2: for a `WriteBarrier` call with `dst` inside
`[g_lowest_address, g_highest_address)` and `ref` inside
`[g_ephemeral_low, g_ephemeral_high)`, after the call the card byte at index
`dst >> 11` (64-bit) respectively `dst >> 10` (32-bit) holds `0xFF`. -/
theorem write_barrier_marks_card (b : HeapBounds) (win64 : Bool) (s : GCState)
    (dst ref : Nat)
    (h1 : b.g_lowest_address ≤ dst) (h2 : dst < b.g_highest_address)
    (h3 : b.g_ephemeral_low ≤ ref) (h4 : ref < b.g_ephemeral_high) :
    (WriteBarrier b win64 s dst ref).1.cardTable
      (dst >>> (if win64 then 11 else 10)) = 0xFF := by
  have hout : ¬ (dst < b.g_lowest_address ∨ b.g_highest_address ≤ dst) := by
    push_neg
    exact ⟨h1, h2⟩
  have hidx : dst >>> (if win64 then 11 else 10) = card_byte win64 dst := rfl
  rw [hidx]
  unfold WriteBarrier ErectWriteBarrier
  by_cases hmk : s.cardTable (card_byte win64 dst) ≠ 0xFF
  · simp [hout, h3, h4, hmk, Function.update_same]
  · simp only [not_not] at hmk
    simp [hout, h3, h4, hmk]

/-- Witness for `write_barrier_marks_card` at a concrete state. -/
theorem write_barrier_marks_card_witness :
    (100 : Nat) ≤ 150 ∧ (150 : Nat) < 200 ∧ (1000 : Nat) ≤ 1500 ∧
      (1500 : Nat) < 2000 ∧
    (WriteBarrier ⟨100, 200, 1000, 2000⟩ true ⟨fun _ => 0, fun _ => 0⟩
      150 1500).1.cardTable (150 >>> (if true then 11 else 10)) = 0xFF :=
  ⟨by decide, by decide, by decide, by decide,
    write_barrier_marks_card ⟨100, 200, 1000, 2000⟩ true
      ⟨fun _ => 0, fun _ => 0⟩ 150 1500
      (by decide) (by decide) (by decide) (by decide)⟩

/-- Claim C3: `WriteBarrier` performs the raw store `*dst = ref`
unconditionally: after any call, the word at `dst` equals `ref`, for all
arguments (including `ref = 0`, the null reference, and `dst` outside the heap
bounds), whether or not a card was marked. -/
theorem write_barrier_stores_field (b : HeapBounds) (win64 : Bool)
    (s : GCState) (dst ref : Nat) :
    (WriteBarrier b win64 s dst ref).1.mem dst = ref := by
  simp [WriteBarrier, Function.update_same]

/-- Claim C6: when `dst` lies outside `[g_lowest_address, g_highest_address)`,
a `WriteBarrier` call changes no card-table byte and performs no card store:
the failed bounds check is a defined no-op of the barrier. -/
theorem write_barrier_out_of_bounds_noop (b : HeapBounds) (win64 : Bool)
    (s : GCState) (dst ref : Nat)
    (h : dst < b.g_lowest_address ∨ b.g_highest_address ≤ dst) :
    (∀ i, (WriteBarrier b win64 s dst ref).1.cardTable i = s.cardTable i) ∧
      (WriteBarrier b win64 s dst ref).2 = [] := by
  constructor
  · intro i
    simp [WriteBarrier, ErectWriteBarrier, h]
  · simp [WriteBarrier, ErectWriteBarrier, h]

/-- Witness for `write_barrier_out_of_bounds_noop` at a concrete state. -/
theorem write_barrier_out_of_bounds_noop_witness :
    ((50 : Nat) < 100 ∨ (200 : Nat) ≤ 50) ∧
    ((∀ i, (WriteBarrier ⟨100, 200, 1000, 2000⟩ true ⟨fun _ => 0, fun _ => 0⟩
        50 1500).1.cardTable i = (fun _ => (0 : Nat)) i) ∧
      (WriteBarrier ⟨100, 200, 1000, 2000⟩ true ⟨fun _ => 0, fun _ => 0⟩
        50 1500).2 = []) :=
  ⟨Or.inl (by decide),
    write_barrier_out_of_bounds_noop ⟨100, 200, 1000, 2000⟩ true
      ⟨fun _ => 0, fun _ => 0⟩ 50 1500 (Or.inl (by decide))⟩

/-- Claim C7: calling `WriteBarrier` twice in succession with the same
`(dst, ref)` arguments leaves the whole state (stored field and card table) in
exactly the same state as calling it once. -/
theorem write_barrier_idempotent (b : HeapBounds) (win64 : Bool) (s : GCState)
    (dst ref : Nat) :
    (WriteBarrier b win64 (WriteBarrier b win64 s dst ref).1 dst ref).1 =
      (WriteBarrier b win64 s dst ref).1 := by
  show (⟨_, _⟩ : GCState) = (⟨_, _⟩ : GCState)
  have hmem :
      Function.update (Function.update s.mem dst ref) dst ref =
        Function.update s.mem dst ref :=
    Function.update_idem ref ref s.mem
  have hcard := erect_write_barrier_idem b win64 s.cardTable dst ref
  simp only [WriteBarrier]
  rw [GCState.mk.injEq]
  exact ⟨hmem, hcard⟩

/-- Claim C10: when the card byte at index `card_byte dst` already holds
`0xFF`, a `WriteBarrier` call performs no card-table store at all (the barrier
tests the byte first and suppresses the redundant saturating store) and the
card table is untouched. -/
theorem write_barrier_marked_card_no_store (b : HeapBounds) (win64 : Bool)
    (s : GCState) (dst ref : Nat)
    (h : s.cardTable (card_byte win64 dst) = 0xFF) :
    (WriteBarrier b win64 s dst ref).2 = [] ∧
      ∀ i, (WriteBarrier b win64 s dst ref).1.cardTable i = s.cardTable i := by
  unfold WriteBarrier ErectWriteBarrier
  by_cases hout : dst < b.g_lowest_address ∨ b.g_highest_address ≤ dst
  · simp [hout]
  · by_cases heph : b.g_ephemeral_low ≤ ref ∧ ref < b.g_ephemeral_high
    · simp [hout, heph, h]
    · simp [hout, heph]

/-- Witness for `write_barrier_marked_card_no_store` at a concrete state whose
card byte is already saturated. -/
theorem write_barrier_marked_card_no_store_witness :
    ((fun _ => (0xFF : Nat)) (card_byte true 150) = 0xFF) ∧
    ((WriteBarrier ⟨100, 200, 1000, 2000⟩ true ⟨fun _ => 0, fun _ => 0xFF⟩
        150 1500).2 = [] ∧
      ∀ i, (WriteBarrier ⟨100, 200, 1000, 2000⟩ true ⟨fun _ => 0, fun _ => 0xFF⟩
        150 1500).1.cardTable i = (fun _ => (0xFF : Nat)) i) :=
  ⟨rfl,
    write_barrier_marked_card_no_store ⟨100, 200, 1000, 2000⟩ true
      ⟨fun _ => 0, fun _ => 0xFF⟩ 150 1500 rfl⟩

/-- Helper: the exact result of a fast-path `AllocateObject` call. -/
theorem AllocateObject_fast
    (slowAlloc : alloc_context → Nat → Option Nat × alloc_context)
    (ctx : alloc_context) (mem : Nat → Nat) (pMT size : Nat)
    (h : ctx.alloc_ptr + size ≤ ctx.alloc_limit) :
    AllocateObject slowAlloc ctx mem pMT size =
      ⟨some ctx.alloc_ptr, ⟨ctx.alloc_ptr + size, ctx.alloc_limit⟩,
        Function.update mem ctx.alloc_ptr pMT, 0⟩ := by
  simp [AllocateObject, h]

/-- Claim C1: when `alloc_ptr + size <= alloc_limit`, `AllocateObject` returns
the original cursor as the object's address, advances the cursor to
`alloc_ptr + size` (leaving the limit unchanged), and never invokes the
external heap's slow allocation path. -/
theorem alloc_fast_path
    (slowAlloc : alloc_context → Nat → Option Nat × alloc_context)
    (ctx : alloc_context) (mem : Nat → Nat) (pMT size : Nat)
    (h : ctx.alloc_ptr + size ≤ ctx.alloc_limit) :
    (AllocateObject slowAlloc ctx mem pMT size).pObject =
      some ctx.alloc_ptr ∧
    (AllocateObject slowAlloc ctx mem pMT size).context =
      ⟨ctx.alloc_ptr + size, ctx.alloc_limit⟩ ∧
    (AllocateObject slowAlloc ctx mem pMT size).slowCalls = 0 := by
  simp [AllocateObject, h]

/-- Witness for `alloc_fast_path` at a concrete context. -/
theorem alloc_fast_path_witness :
    (100 : Nat) + 24 ≤ 200 ∧
    ((AllocateObject (fun c _ => (none, c)) ⟨100, 200⟩ (fun _ => 0) 7
        24).pObject = some 100 ∧
      (AllocateObject (fun c _ => (none, c)) ⟨100, 200⟩ (fun _ => 0) 7
        24).context = ⟨124, 200⟩ ∧
      (AllocateObject (fun c _ => (none, c)) ⟨100, 200⟩ (fun _ => 0) 7
        24).slowCalls = 0) :=
  ⟨by decide,
    alloc_fast_path (fun c _ => (none, c)) ⟨100, 200⟩ (fun _ => 0) 7 24
      (by decide)⟩

/-- Claim C5: when `alloc_ptr + size > alloc_limit`, the fast path does not
mutate the allocation context — the context after the call is exactly whatever
the external slow path left behind — and the slow allocation entry point is
invoked exactly once, its answer becoming the call's result. -/
theorem alloc_slow_path_frame
    (slowAlloc : alloc_context → Nat → Option Nat × alloc_context)
    (ctx : alloc_context) (mem : Nat → Nat) (pMT size : Nat)
    (h : ctx.alloc_limit < ctx.alloc_ptr + size) :
    (AllocateObject slowAlloc ctx mem pMT size).slowCalls = 1 ∧
    (AllocateObject slowAlloc ctx mem pMT size).context =
      (slowAlloc ctx size).2 ∧
    (AllocateObject slowAlloc ctx mem pMT size).pObject =
      (slowAlloc ctx size).1 := by
  have hnot : ¬ ctx.alloc_ptr + size ≤ ctx.alloc_limit := Nat.not_le.mpr h
  unfold AllocateObject
  simp only [hnot, if_false]
  rcases hr : (slowAlloc ctx size).1 with _ | p <;> simp [hr]

/-- Witness for `alloc_slow_path_frame` with a slow path that repopulates the
context. -/
theorem alloc_slow_path_frame_witness :
    (12 : Nat) < 10 + 5 ∧
    ((AllocateObject (fun _ n => (some 500, ⟨500 + n, 900⟩)) ⟨10, 12⟩
        (fun _ => 0) 7 5).slowCalls = 1 ∧
      (AllocateObject (fun _ n => (some 500, ⟨500 + n, 900⟩)) ⟨10, 12⟩
        (fun _ => 0) 7 5).context =
        ((fun (_ : alloc_context) (n : Nat) =>
          ((some 500 : Option Nat), (⟨500 + n, 900⟩ : alloc_context)))
          ⟨10, 12⟩ 5).2 ∧
      (AllocateObject (fun _ n => (some 500, ⟨500 + n, 900⟩)) ⟨10, 12⟩
        (fun _ => 0) 7 5).pObject =
        ((fun (_ : alloc_context) (n : Nat) =>
          ((some 500 : Option Nat), (⟨500 + n, 900⟩ : alloc_context)))
          ⟨10, 12⟩ 5).1) :=
  ⟨by decide,
    alloc_slow_path_frame (fun _ n => (some 500, ⟨500 + n, 900⟩)) ⟨10, 12⟩
      (fun _ => 0) 7 5 (by decide)⟩

/-- Counterexample to claim C8: `AllocateObject` does not reject a request of
`size = 0` — at context `⟨0, 24⟩` the zero-size request succeeds through the
fast path (the slow path is not consulted), returning the cursor as a zero-size
object, with no error of any kind. -/
theorem alloc_zero_size_counterexample :
    (AllocateObject (fun c _ => (none, c)) ⟨0, 24⟩ (fun _ => 0) 7 0).pObject =
      some 0 ∧
    (AllocateObject (fun c _ => (none, c)) ⟨0, 24⟩ (fun _ => 0) 7
      0).slowCalls = 0 :=
  ⟨rfl, rfl⟩

/-- Claim C8 as amended: a `size = 0` request is not rejected; the fast path
treats it like any other request, and whenever `alloc_ptr <= alloc_limit` it
returns the current cursor as the object while leaving the context unchanged
(the cursor advances by zero) and never calls the slow path. -/
theorem alloc_zero_size_fast_path
    (slowAlloc : alloc_context → Nat → Option Nat × alloc_context)
    (ctx : alloc_context) (mem : Nat → Nat) (pMT : Nat)
    (h : ctx.alloc_ptr ≤ ctx.alloc_limit) :
    (AllocateObject slowAlloc ctx mem pMT 0).pObject = some ctx.alloc_ptr ∧
    (AllocateObject slowAlloc ctx mem pMT 0).context = ctx ∧
    (AllocateObject slowAlloc ctx mem pMT 0).slowCalls = 0 := by
  have h0 : ctx.alloc_ptr + 0 ≤ ctx.alloc_limit := by simpa using h
  rw [AllocateObject_fast slowAlloc ctx mem pMT 0 h0]
  rcases ctx with ⟨p, l⟩
  exact ⟨rfl, rfl, rfl⟩

/-- Witness for `alloc_zero_size_fast_path` at a concrete context. -/
theorem alloc_zero_size_fast_path_witness :
    (3 : Nat) ≤ 24 ∧
    ((AllocateObject (fun c _ => (none, c)) ⟨3, 24⟩ (fun _ => 0) 7
        0).pObject = some 3 ∧
      (AllocateObject (fun c _ => (none, c)) ⟨3, 24⟩ (fun _ => 0) 7
        0).context = ⟨3, 24⟩ ∧
      (AllocateObject (fun c _ => (none, c)) ⟨3, 24⟩ (fun _ => 0) 7
        0).slowCalls = 0) :=
  ⟨by decide,
    alloc_zero_size_fast_path (fun c _ => (none, c)) ⟨3, 24⟩ (fun _ => 0) 7
      (by decide)⟩

/-- Claim C9: whenever `AllocateObject` returns successfully (fast path or slow
path), the first machine word of the returned object holds the supplied
descriptor reference `pMT`, written before the call returns. -/
theorem alloc_writes_header
    (slowAlloc : alloc_context → Nat → Option Nat × alloc_context)
    (ctx : alloc_context) (mem : Nat → Nat) (pMT size p : Nat)
    (h : (AllocateObject slowAlloc ctx mem pMT size).pObject = some p) :
    (AllocateObject slowAlloc ctx mem pMT size).mem p = pMT := by
  unfold AllocateObject at h ⊢
  by_cases hfast : ctx.alloc_ptr + size ≤ ctx.alloc_limit
  · simp only [hfast, if_true] at h ⊢
    simp only [Option.some.injEq] at h
    subst h
    exact Function.update_same _ _ _
  · simp only [hfast, if_false] at h ⊢
    rcases hr : (slowAlloc ctx size).1 with _ | q
    · simp [hr] at h
    · simp only [hr] at h ⊢
      simp only [Option.some.injEq] at h
      subst h
      exact Function.update_same _ _ _

/-- Witness for `alloc_writes_header` at a concrete fast-path allocation. -/
theorem alloc_writes_header_witness :
    (AllocateObject (fun c _ => (none, c)) ⟨100, 200⟩ (fun _ => 0) 7
      24).pObject = some 100 ∧
    (AllocateObject (fun c _ => (none, c)) ⟨100, 200⟩ (fun _ => 0) 7
      24).mem 100 = 7 :=
  ⟨rfl,
    alloc_writes_header (fun c _ => (none, c)) ⟨100, 200⟩ (fun _ => 0) 7 24
      100 rfl⟩

/-- Helper: a run whose total requested size fits in the region stays entirely
on the fast path, returns exactly the bump addresses, and leaves the cursor at
`alloc_ptr + sum of sizes` with the limit unchanged. -/
theorem allocRun_fits
    (slowAlloc : alloc_context → Nat → Option Nat × alloc_context)
    (pMT : Nat) (sizes : List Nat) :
    ∀ (ctx : alloc_context) (mem : Nat → Nat),
      ctx.alloc_ptr + sizes.sum ≤ ctx.alloc_limit →
      (allocRun slowAlloc pMT ctx mem sizes).1 =
        (addrs ctx.alloc_ptr sizes).map some ∧
      (allocRun slowAlloc pMT ctx mem sizes).2.1 =
        ⟨ctx.alloc_ptr + sizes.sum, ctx.alloc_limit⟩ := by
  induction sizes with
  | nil =>
    intro ctx mem _
    refine ⟨rfl, ?_⟩
    rcases ctx with ⟨p, l⟩
    rfl
  | cons s rest ih =>
    intro ctx mem h
    have hsum : (s :: rest).sum = s + rest.sum := by simp
    have hfit1 : ctx.alloc_ptr + s ≤ ctx.alloc_limit := by
      rw [hsum] at h
      omega
    have hfit2 : (ctx.alloc_ptr + s) + rest.sum ≤ ctx.alloc_limit := by
      rw [hsum] at h
      omega
    have hrec := ih ⟨ctx.alloc_ptr + s, ctx.alloc_limit⟩
      (Function.update mem ctx.alloc_ptr pMT) hfit2
    simp only [allocRun, AllocateObject_fast slowAlloc ctx mem pMT s hfit1]
    refine ⟨?_, ?_⟩
    · simp only [addrs, List.map]
      exact congrArg _ hrec.1
    · rw [hrec.2, hsum]
      simp [Nat.add_assoc]

/-- Helper: `addrs` with strictly positive sizes is strictly increasing. -/
theorem addrs_chain_lt (sizes : List Nat) :
    ∀ c, (∀ s ∈ sizes, 0 < s) → List.Chain' (· < ·) (addrs c sizes) := by
  induction sizes with
  | nil => intro c _; simp [addrs]
  | cons s rest ih =>
    intro c hpos
    have hs : 0 < s := hpos s (List.mem_cons_self s rest)
    have htail : ∀ x ∈ rest, 0 < x := fun x hx =>
      hpos x (List.mem_cons_of_mem s hx)
    cases rest with
    | nil => simp [addrs]
    | cons s2 r2 =>
      simp only [addrs]
      exact List.chain'_cons.mpr ⟨Nat.lt_add_of_pos_right hs,
        by simpa [addrs] using ih (c + s) htail⟩

/-- Helper: each address `addrs` hands out exceeds its predecessor by exactly
the corresponding requested size. -/
theorem addrs_getD_succ (sizes : List Nat) :
    ∀ c i, i + 1 < sizes.length →
      (addrs c sizes).getD (i + 1) 0 =
        (addrs c sizes).getD i 0 + sizes.getD i 0 := by
  induction sizes with
  | nil => intro c i h; simp at h
  | cons s rest ih =>
    intro c i h
    cases i with
    | zero =>
      cases rest with
      | nil => simp at h
      | cons s2 r2 => simp [addrs]
    | succ j =>
      have hj : j + 1 < rest.length := by
        simp only [List.length_cons] at h
        omega
      simpa [addrs] using ih (c + s) j hj

/-- Counterexample to claim C4: two zero-size requests both fit in the region
`⟨0, 24⟩`, yet the run returns the same address twice — the returned addresses
are not strictly increasing. -/
theorem alloc_seq_counterexample :
    (0 : Nat) + ([0, 0] : List Nat).sum ≤ 24 ∧
    (allocRun (fun c _ => (none, c)) 7 ⟨0, 24⟩ (fun _ => 0) [0, 0]).1 =
      [some 0, some 0] ∧
    ¬ List.Chain' (· < ·)
      (((allocRun (fun c _ => (none, c)) 7 ⟨0, 24⟩ (fun _ => 0)
        [0, 0]).1).filterMap id) := by
  refine ⟨by decide, rfl, ?_⟩
  intro hch
  have : ((allocRun (fun c _ => (none, c)) 7 ⟨0, 24⟩ (fun _ => 0)
      [0, 0]).1).filterMap id = [0, 0] := rfl
  rw [this] at hch
  exact absurd (List.chain'_cons.mp hch).1 (by decide)

/-- Claim C4 as amended: for every sequence of `AllocateObject` calls with
strictly positive requested sizes that all fit within one bump region, the
returned addresses are strictly increasing, each successive address exceeding
the previous by exactly the requested size (no extra alignment is applied),
and the cursor never exceeds the limit after any call of the sequence. -/
theorem alloc_seq_monotone
    (slowAlloc : alloc_context → Nat → Option Nat × alloc_context)
    (pMT : Nat) (ctx : alloc_context) (mem : Nat → Nat) (sizes : List Nat)
    (hfit : ctx.alloc_ptr + sizes.sum ≤ ctx.alloc_limit)
    (hpos : ∀ s ∈ sizes, 0 < s) :
    (allocRun slowAlloc pMT ctx mem sizes).1 =
      (addrs ctx.alloc_ptr sizes).map some ∧
    List.Chain' (· < ·) (addrs ctx.alloc_ptr sizes) ∧
    (∀ i, i + 1 < sizes.length →
      (addrs ctx.alloc_ptr sizes).getD (i + 1) 0 =
        (addrs ctx.alloc_ptr sizes).getD i 0 + sizes.getD i 0) ∧
    (∀ pre suf, sizes = pre ++ suf →
      ((allocRun slowAlloc pMT ctx mem pre).2.1).alloc_ptr ≤
        ((allocRun slowAlloc pMT ctx mem pre).2.1).alloc_limit) := by
  refine ⟨(allocRun_fits slowAlloc pMT sizes ctx mem hfit).1,
    addrs_chain_lt sizes ctx.alloc_ptr hpos,
    fun i hi => addrs_getD_succ sizes ctx.alloc_ptr i hi, ?_⟩
  intro pre suf hps
  have hpre : ctx.alloc_ptr + pre.sum ≤ ctx.alloc_limit := by
    have hsum : sizes.sum = pre.sum + suf.sum := by
      rw [hps, List.sum_append]
    omega
  rw [(allocRun_fits slowAlloc pMT pre ctx mem hpre).2]
  exact hpre

/-- Witness for `alloc_seq_monotone` on a concrete two-request run. -/
theorem alloc_seq_monotone_witness :
    ((100 : Nat) + ([8, 16] : List Nat).sum ≤ 200 ∧
      ∀ s ∈ ([8, 16] : List Nat), 0 < s) ∧
    ((allocRun (fun c _ => (none, c)) 7 ⟨100, 200⟩ (fun _ => 0) [8, 16]).1 =
        (addrs 100 [8, 16]).map some ∧
      List.Chain' (· < ·) (addrs 100 [8, 16]) ∧
      (∀ i, i + 1 < ([8, 16] : List Nat).length →
        (addrs 100 [8, 16]).getD (i + 1) 0 =
          (addrs 100 [8, 16]).getD i 0 + ([8, 16] : List Nat).getD i 0) ∧
      (∀ pre suf, ([8, 16] : List Nat) = pre ++ suf →
        ((allocRun (fun c _ => (none, c)) 7 ⟨100, 200⟩ (fun _ => 0)
            pre).2.1).alloc_ptr ≤
          ((allocRun (fun c _ => (none, c)) 7 ⟨100, 200⟩ (fun _ => 0)
            pre).2.1).alloc_limit)) :=
  ⟨⟨by decide, by decide⟩,
    alloc_seq_monotone (fun c _ => (none, c)) 7 ⟨100, 200⟩ (fun _ => 0)
      [8, 16] (by decide) (by decide)⟩

end GCSample
